import Mathlib

/-!
Verification development for the RsWaveform waveform-codec library.

The definitions below are a shallow embedding of the Python sources under
`src/RsWaveform`.  Machine floats are modelled as rationals together with
explicit rounding functions (half-to-even rounding to the int16 grid for the
WV quantiser, rounding to the float16 grid for the WV dequantiser, rounding
to the float32 grid for the IQW writer).  Byte strings are modelled as
`List Nat` with values below 256; metadata dictionaries are modelled as a
record of `Option` fields (a `none` field stands for "key absent or bound to
Python `None`", which the save paths treat identically through
`dict.get`-with-default and truthiness checks).
-/

namespace RsWaveform

unseal Rat.add Rat.sub Rat.mul Rat.inv

/-- Decidable equality on `Except`, so that concrete save and load results
can be evaluated by `decide`. -/
def exceptDecEq {ε α : Type} [DecidableEq ε] [DecidableEq α] :
    (a b : Except ε α) → Decidable (a = b)
  | .ok a, .ok b =>
      if h : a = b then .isTrue (by rw [h])
      else .isFalse (by intro hh; injection hh; contradiction)
  | .error a, .error b =>
      if h : a = b then .isTrue (by rw [h])
      else .isFalse (by intro hh; injection hh; contradiction)
  | .ok _, .error _ => .isFalse (by intro h; exact Except.noConfusion h)
  | .error _, .ok _ => .isFalse (by intro h; exact Except.noConfusion h)

instance {ε α : Type} [DecidableEq ε] [DecidableEq α] : DecidableEq (Except ε α) :=
  exceptDecEq

/-! ## Control-list bit packing (`wv/utility/array_to_bytes.py`) -/

/-- One column of the 4-row boolean control matrix: the values of the four
marker/control rows at one sample position.  The Python code stores the
matrix as a 4×n array and transposes it to column-major order before
packing; we represent the matrix directly as its list of columns. -/
abbrev Col4 := Bool × Bool × Bool × Bool

/-- The all-zero column used by `pack_bool_array_to_bytes` to right-pad an
odd column count (`np.zeros((1, 4))`). -/
def zeroCol : Col4 := (false, false, false, false)

/-- Numeric value of a `Bool` bit. -/
def bitVal (b : Bool) : ℕ := if b then 1 else 0

/-- Packing of two consecutive columns into one byte, big-endian bit order
(`np.packbits(..., bitorder="big")` on the 8-bit row `[a0 a1 a2 a3 b0 b1 b2 b3]`). -/
def byteOfCols (a b : Col4) : ℕ :=
  128 * bitVal a.1 + 64 * bitVal a.2.1 + 32 * bitVal a.2.2.1 + 16 * bitVal a.2.2.2 +
    8 * bitVal b.1 + 4 * bitVal b.2.1 + 2 * bitVal b.2.2.1 + bitVal b.2.2.2

/-- Unpacking of one byte into its two columns, inverse bit layout of
`byteOfCols` (`np.unpackbits(..., bitorder="big")` then reshape to 4-wide rows
and transpose). -/
def byteToCols (m : ℕ) : List Col4 :=
  [(m.testBit 7, m.testBit 6, m.testBit 5, m.testBit 4),
   (m.testBit 3, m.testBit 2, m.testBit 1, m.testBit 0)]

/-- Core of `pack_bool_array_to_bytes`: consume the (even-length, after
padding) column list two columns at a time, one output byte per pair.  The
singleton branch is unreachable after padding and pads with the zero column,
matching the padding semantics. -/
def packPairs : List Col4 → List ℕ
  | [] => []
  | [a] => [byteOfCols a zeroCol]
  | a :: b :: rest => byteOfCols a b :: packPairs rest

/-- Embedding of `pack_bool_array_to_bytes` for a 4×n matrix given as its
column list: an odd column count is right-padded with one zero column, then
every two columns become one byte. -/
def pack_bool_array_to_bytes (cols : List Col4) : List ℕ :=
  if cols.length % 2 = 1 then packPairs (cols ++ [zeroCol]) else packPairs cols

/-- Embedding of `unpack_bytes_to_bool_array`: every byte yields two columns
and the column list is truncated to `num_samples` columns. -/
def unpack_bytes_to_bool_array (packed_bytes : List ℕ) (num_samples : ℕ) : List Col4 :=
  (packed_bytes.flatMap byteToCols).take num_samples

lemma byteToCols_byteOfCols (a b : Col4) : byteToCols (byteOfCols a b) = [a, b] := by
  obtain ⟨a0, a1, a2, a3⟩ := a
  obtain ⟨b0, b1, b2, b3⟩ := b
  cases a0 <;> cases a1 <;> cases a2 <;> cases a3 <;>
    cases b0 <;> cases b1 <;> cases b2 <;> cases b3 <;> decide

set_option maxRecDepth 8000 in
lemma packPairs_byteToCols (m : ℕ) (h : m < 256) :
    packPairs (byteToCols m) = [m] := by
  revert h
  revert m
  decide

lemma flatMap_byteToCols_length (bs : List ℕ) :
    (bs.flatMap byteToCols).length = 2 * bs.length := by
  induction bs with
  | nil => simp
  | cons m rest ih => simp [byteToCols, ih]; omega

/-- Two-at-a-time induction principle for column lists, mirroring the
recursion structure of `packPairs`. -/
theorem col4_pair_induction {P : List Col4 → Prop} (h0 : P []) (h1 : ∀ a, P [a])
    (h2 : ∀ a b l, P l → P (a :: b :: l)) : ∀ l, P l
  | [] => h0
  | [a] => h1 a
  | a :: b :: l => h2 a b l (col4_pair_induction h0 h1 h2 l)

lemma packPairs_flatMap (bs : List ℕ) (h : ∀ m ∈ bs, m < 256) :
    packPairs (bs.flatMap byteToCols) = bs := by
  induction bs with
  | nil => simp [packPairs]
  | cons m rest ih =>
    have hm : m < 256 := h m (by simp)
    have hrest : ∀ x ∈ rest, x < 256 := fun x hx => h x (by simp [hx])
    have hb : byteOfCols (m.testBit 7, m.testBit 6, m.testBit 5, m.testBit 4)
        (m.testBit 3, m.testBit 2, m.testBit 1, m.testBit 0) = m := by
      have hs := packPairs_byteToCols m hm
      simp only [byteToCols, packPairs, List.cons.injEq, and_true] at hs
      exact hs
    simp only [List.flatMap_cons, byteToCols, List.cons_append, List.nil_append, packPairs, hb]
    show m :: packPairs (rest.flatMap byteToCols) = m :: rest
    rw [ih hrest]

lemma flatMap_packPairs (cols : List Col4) (h : cols.length % 2 = 0) :
    (packPairs cols).flatMap byteToCols = cols := by
  induction cols using col4_pair_induction with
  | h0 => simp [packPairs]
  | h1 a => simp at h
  | h2 a b l ih =>
    have hl : l.length % 2 = 0 := by simp [List.length_cons] at h; omega
    simp [packPairs, byteToCols_byteOfCols, ih hl]

/-- C6: control-list round trip.  For every byte string `b` and sample count
`n` with `n = 2 · |b|`, unpacking `b` to a 4×n boolean matrix and packing the
matrix back yields exactly `b`; for every 4×n boolean matrix with `n` even,
unpacking `pack` of it with sample count `n` yields the matrix back, while for
odd `n` the packed form carries one extra zero-padded trailing column.  The
4×2 matrix `[[0,1],[1,0],[1,0],[0,1]]` (columns `(0,1,1,0)` and `(1,0,0,1)`)
packs to the single byte `0x69 = 105`, and unpacking `0x69` with `n = 2`
reproduces it. -/
theorem control_list_pack_unpack_roundtrip :
    (∀ (b : List ℕ) (n : ℕ), n = 2 * b.length → (∀ m ∈ b, m < 256) →
      pack_bool_array_to_bytes (unpack_bytes_to_bool_array b n) = b) ∧
    (∀ (cols : List Col4) (n : ℕ), cols.length = n → n % 2 = 0 →
      unpack_bytes_to_bool_array (pack_bool_array_to_bytes cols) n = cols) ∧
    (∀ (cols : List Col4) (n : ℕ), cols.length = n → n % 2 = 1 →
      (pack_bool_array_to_bytes cols).flatMap byteToCols = cols ++ [zeroCol]) ∧
    pack_bool_array_to_bytes [(false, true, true, false), (true, false, false, true)] = [105] ∧
    unpack_bytes_to_bool_array [105] 2 = [(false, true, true, false), (true, false, false, true)] := by
  refine ⟨?_, ?_, ?_, by decide, by decide⟩
  · intro b n hn hb
    have hfull : unpack_bytes_to_bool_array b n = b.flatMap byteToCols := by
      rw [unpack_bytes_to_bool_array, hn, ← flatMap_byteToCols_length b, List.take_length]
    rw [hfull, pack_bool_array_to_bytes]
    have hlen : (b.flatMap byteToCols).length % 2 = 0 := by
      rw [flatMap_byteToCols_length]; omega
    rw [if_neg (by omega)]
    exact packPairs_flatMap b hb
  · intro cols n hlen hpar
    have heven : cols.length % 2 = 0 := by omega
    rw [pack_bool_array_to_bytes, if_neg (by omega), unpack_bytes_to_bool_array,
      flatMap_packPairs cols heven, ← hlen, List.take_length]
  · intro cols n hlen hpar
    have hodd : cols.length % 2 = 1 := by omega
    rw [pack_bool_array_to_bytes, if_pos hodd]
    exact flatMap_packPairs (cols ++ [zeroCol]) (by simp; omega)

/-- Witness for `control_list_pack_unpack_roundtrip`: the byte-level round
trip evaluated at the concrete byte string `[0x69]` with `n = 2`. -/
theorem control_list_pack_unpack_roundtrip_witness :
    pack_bool_array_to_bytes (unpack_bytes_to_bool_array [105] 2) = [105] :=
  control_list_pack_unpack_roundtrip.1 [105] 2 (by decide) (by decide)

/-! ## WV int16 quantisation and float16 dequantisation
(`wv/Save.py` `_prepare_data`, `wv/Load.py` `_fix_to_double`) -/

/-- Round-half-to-even on rationals, the rounding mode of `np.round` and of
IEEE-754 conversions. -/
def round_half_even (q : ℚ) : ℤ :=
  let n := ⌊q⌋
  let r := q - n
  if r < 1 / 2 then n
  else if 1 / 2 < r then n + 1
  else if n % 2 = 0 then n else n + 1

/-- Saturation of a rounded value to the int16 range, mirroring the two
masked assignments `real[real > info.max] = info.max` and
`real[real < info.min] = info.min` in `Save._prepare_data`. -/
def clamp_int16 (v : ℤ) : ℤ :=
  if v > 32767 then 32767 else if v < -32768 then -32768 else v

/-- One component of `Save._prepare_data`: `round(scale * x)` saturated to
the int16 range. -/
def prepare_component (scale x : ℚ) : ℤ :=
  clamp_int16 (round_half_even (scale * x))

/-- Embedding of `Save._prepare_data`: interleaved int16 stream
`[I0 Q0 I1 Q1 …]` from the complex sample list (real and imaginary parts of
each sample as consecutive values). -/
def prepare_data (scale : ℚ) (data : List (ℚ × ℚ)) : List ℤ :=
  data.flatMap fun p => [prepare_component scale p.1, prepare_component scale p.2]

/-- Float16 unit in the last place for a nonnegative integer magnitude up to
2^16: the float16 significand has 11 bits, so values in `[2^k, 2^(k+1))` with
`k ≥ 11` round to multiples of `2^(k-10)`. -/
def f16ulp (n : ℕ) : ℕ :=
  if n < 2048 then 1
  else if n < 4096 then 2
  else if n < 8192 then 4
  else if n < 16384 then 8
  else if n < 32768 then 16
  else 32

/-- Round a natural number to the nearest multiple of `u`, ties to the even
multiple (IEEE-754 round-to-nearest-even on an exact half). -/
def round_mult_even (n u : ℕ) : ℕ :=
  let q := n / u
  let r := n % u
  if 2 * r < u then q * u
  else if u < 2 * r then (q + 1) * u
  else if q % 2 = 0 then q * u else (q + 1) * u

/-- Rounding of a natural number to the float16 grid (round to nearest, ties
to even), the effect of `np.float16` on int16 magnitudes. -/
def f16_round_nat (n : ℕ) : ℕ := round_mult_even n (f16ulp n)

/-- Rounding of an integer to the float16 grid; IEEE rounding is symmetric
around zero. -/
def f16_round_int (v : ℤ) : ℤ :=
  if v < 0 then -(f16_round_nat v.natAbs : ℤ) else (f16_round_nat v.natAbs : ℤ)

/-- The constant `maximum = np.float16(np.iinfo(np.int16).max)` computed by
`Load._fix_to_double`: INT16_MAX rounded to the float16 grid. -/
def int16_max_as_float16 : ℤ := f16_round_int 32767

/-- Embedding of `Load._fix_to_double` for one int16 value: the value is
first converted to float16 (`to_float_type.type(values)`), then divided by
`int16_max_as_float16`.  The division itself is exact: a float16-representable
integer divided by the power of two 2^15 is again float16-representable, so
no further rounding step is needed in the model. -/
def fix_to_double (v : ℤ) : ℚ :=
  (f16_round_int v : ℚ) / (int16_max_as_float16 : ℚ)

lemma round_half_even_err (q : ℚ) : |((round_half_even q : ℤ) : ℚ) - q| ≤ 1 / 2 := by
  have hfl : (⌊q⌋ : ℚ) ≤ q := Int.floor_le q
  have hfu : q < (⌊q⌋ : ℚ) + 1 := Int.lt_floor_add_one q
  rw [round_half_even]
  split_ifs with h1 h2 h3 <;> rw [abs_le] <;> push_cast <;> constructor <;> linarith

lemma round_mult_even_err (n u : ℕ) (hu : 0 < u) :
    2 * ((round_mult_even n u : ℕ) : ℤ) ≤ 2 * n + u ∧
      2 * (n : ℤ) ≤ 2 * ((round_mult_even n u : ℕ) : ℤ) + u := by
  have hmod := Nat.mod_lt n hu
  have hdiv := Nat.div_add_mod n u
  have hr0 : 0 ≤ n % u := Nat.zero_le _
  have hq0 : 0 ≤ n / u := Nat.zero_le _
  rw [round_mult_even]
  split_ifs with h1 h2 h3 <;> constructor <;> zify at * <;> linarith

lemma f16ulp_le (n : ℕ) : f16ulp n ≤ 32 := by
  rw [f16ulp]; split_ifs <;> omega

lemma f16ulp_pos (n : ℕ) : 0 < f16ulp n := by
  rw [f16ulp]; split_ifs <;> omega

lemma f16_round_nat_err (n : ℕ) :
    ((f16_round_nat n : ℕ) : ℤ) - n ≤ 16 ∧ (n : ℤ) - ((f16_round_nat n : ℕ) : ℤ) ≤ 16 := by
  have h1 := round_mult_even_err n (f16ulp n) (f16ulp_pos n)
  have h2 := f16ulp_le n
  rw [f16_round_nat]
  omega

lemma f16_round_int_err (v : ℤ) :
    |((f16_round_int v : ℤ) : ℚ) - (v : ℚ)| ≤ 16 := by
  have hn := f16_round_nat_err v.natAbs
  have key : -(16 : ℤ) ≤ f16_round_int v - v ∧ f16_round_int v - v ≤ 16 := by
    rw [f16_round_int]
    split_ifs with hneg <;> omega
  rw [abs_le]
  exact ⟨by exact_mod_cast key.1, by exact_mod_cast key.2⟩

lemma int16_max_as_float16_eq : int16_max_as_float16 = 32768 := by decide

/-- Embedding of the metadata round trip of the float level fields.
`Save._write_level_offset` emits the stored `rms` and `peak` with 6 decimal
places (`LEVEL OFFS:{rms:.6f},{peak:.6f}`, half-even rounding of the decimal
expansion) and `Save._write_reflevel` formats `reflevel` the same way;
`Load._extract_meta` parses the decimal text back with `float(...)`
(`meta.update(rms=float(offset), peak=float(peak))`).  At rational
granularity the loaded value is therefore the stored value rounded to six
decimal places. -/
def wv_level_offs_roundtrip (x : ℚ) : ℚ :=
  ((round_half_even (x * 1000000) : ℤ) : ℚ) / 1000000

lemma round_half_even_intCast (k : ℤ) : round_half_even ((k : ℤ) : ℚ) = k := by
  rw [round_half_even]
  simp only [Int.floor_intCast, sub_self]
  rw [if_pos (by norm_num)]

/-- C1 counterexample: the WV round-trip law as stated fails in both its
sample clause and its metadata clause.  Samples: for the component
`13107/32768` (exactly representable in float64 and on the int16 grid,
`round(2^15 · x) = 13107`) the loader returns
`float16(13107)/float16(32767) = 13104/32768`, which is `3/32768` away from
the original — more than the claimed quantisation step of `1/2^15` — and
the divisor actually used is not INT16_MAX = 32767, since `np.float16(32767)`
rounds to 32768.  Metadata: a stored `rms` of `2^-10 = 0.0009765625` is
emitted by `LEVEL OFFS` as the 6-decimal text `0.000977` and loads back as
`977/10^6 ≠ 2^-10`, so the loaded metadata does not equal the original
exactly. -/
theorem wv_roundtrip_one_ulp_refuted :
    |fix_to_double (prepare_component 32768 (13107 / 32768)) - 13107 / 32768| > 1 / 32768 ∧
      int16_max_as_float16 ≠ 32767 ∧
      wv_level_offs_roundtrip (1 / 1024) = 977 / 1000000 ∧
      wv_level_offs_roundtrip (1 / 1024) ≠ 1 / 1024 := by
  refine ⟨?_, by decide, by decide, by decide⟩
  have h1 : fix_to_double (prepare_component 32768 (13107 / 32768)) = 819 / 2048 := by
    decide
  rw [h1]
  rw [show (819 : ℚ) / 2048 - 13107 / 32768 = -(3 / 32768) by norm_num]
  rw [abs_neg, abs_of_pos (by norm_num)]
  norm_num

/-- C1 amended.  Samples: for every component `x` whose int16 quantisation
`round(2^15 · x)` stays inside the int16 range, dequantising the quantised
value recovers `x` up to `33/2^16` (the half-step `1/2^16` of the int16
rounding plus up to `16/2^15` of float16 rounding of the int16 magnitude);
the divisor used by the loader is `float16(INT16_MAX) = 32768`.  Metadata:
the level fields (`rms`, `peak`, `reflevel`) load back as the stored value
rounded to six decimal places, which is the stored value exactly whenever it
is an integer multiple of `10^-6`. -/
theorem wv_roundtrip_sample_bound :
    (∀ x : ℚ, -32768 ≤ round_half_even (32768 * x) →
      round_half_even (32768 * x) ≤ 32767 →
      |fix_to_double (prepare_component 32768 x) - x| ≤ 33 / 65536) ∧
    (∀ k : ℤ, wv_level_offs_roundtrip (((k : ℤ) : ℚ) / 1000000) = ((k : ℤ) : ℚ) / 1000000) := by
  constructor
  · intro x hlo hhi
    have hclamp : prepare_component 32768 x = round_half_even (32768 * x) := by
      rw [prepare_component, clamp_int16, if_neg (by omega), if_neg (by omega)]
    rw [hclamp]
    set v := round_half_even (32768 * x) with hv
    have h1 : |((v : ℤ) : ℚ) - 32768 * x| ≤ 1 / 2 := round_half_even_err (32768 * x)
    have h2 := f16_round_int_err v
    have hmaxQ : ((int16_max_as_float16 : ℤ) : ℚ) = 32768 := by
      rw [int16_max_as_float16_eq]; norm_num
    have hsplit : fix_to_double v - x =
        ((((f16_round_int v : ℤ) : ℚ) - (v : ℚ)) + (((v : ℤ) : ℚ) - 32768 * x)) / 32768 := by
      rw [fix_to_double, hmaxQ]; ring
    rw [hsplit, abs_div, abs_of_pos (show (0 : ℚ) < 32768 by norm_num)]
    have h3 := abs_add (((f16_round_int v : ℤ) : ℚ) - (v : ℚ)) (((v : ℤ) : ℚ) - 32768 * x)
    linarith
  · intro k
    rw [wv_level_offs_roundtrip]
    have h1 : ((k : ℤ) : ℚ) / 1000000 * 1000000 = ((k : ℤ) : ℚ) := by
      field_simp
    rw [h1, round_half_even_intCast]

/-- Witness for `wv_roundtrip_sample_bound`: the sample clause at the
concrete component `x = 13107/32768`, whose quantised value 13107 lies
inside the int16 range, and the metadata clause at the 6-decimal value
`1/2 = 500000/10^6`. -/
theorem wv_roundtrip_sample_bound_witness :
    |fix_to_double (prepare_component 32768 (13107 / 32768)) - 13107 / 32768| ≤ 33 / 65536 ∧
    wv_level_offs_roundtrip (((500000 : ℤ) : ℚ) / 1000000) = ((500000 : ℤ) : ℚ) / 1000000 :=
  ⟨wv_roundtrip_sample_bound.1 (13107 / 32768) (by decide) (by decide),
   wv_roundtrip_sample_bound.2 500000⟩

/-! ## Waveform data model (`storage.py`, `parent_storage.py`, `meta/`)

The Python `Meta` object is a string-keyed dictionary.  The save paths read
a fixed set of keys through `get`-with-default and truthiness checks, under
which an absent key and a key bound to `None` behave identically; we
therefore model the metadata as a record of `Option` fields.  The keys
`encryption_flag` and `encryption` are distinct dictionary keys in the
source and are modelled as two distinct fields. -/

structure Meta where
  type : Option String := none
  copyright : Option String := none
  comment : Option String := none
  clock : Option ℚ := none
  reflevel : Option ℚ := none
  rms : Option ℚ := none
  peak : Option ℚ := none
  control_length : Option ℕ := none
  control_list : Option (List Col4) := none
  marker : List (String × List (ℤ × ℤ)) := []
  encryption_flag : Option Bool := none
  encryption : Option Bool := none
  filename : Option String := none
  samples : Option ℕ := none
  scalingfactor : Option ℚ := none
  center_frequency : Option ℚ := none
deriving DecidableEq

/-- The `META_WV_DEFAULTS` table (`meta/defaults.py`): the keys a
default-constructed WV `Meta` holds with non-`None` values.  The default
`type` entry is the tuple `("SMU-WV", 0)`; the writer only uses its first
component. -/
def metaWvDefaults : Meta :=
  { type := some "SMU-WV"
    copyright := some "Rohde & Schwarz"
    comment := some "Created with RsWaveform"
    clock := some 1000000000
    marker := [] }

/-- Python `dict.update`: every key present in `src` overwrites the
corresponding entry of `base`; fields that are absent (`none`) in `src` keep
the base value.  The `marker` key is always present in a constructed `Meta`,
so it is always overwritten. -/
def Meta.update (base src : Meta) : Meta :=
  { type := src.type <|> base.type
    copyright := src.copyright <|> base.copyright
    comment := src.comment <|> base.comment
    clock := src.clock <|> base.clock
    reflevel := src.reflevel <|> base.reflevel
    rms := src.rms <|> base.rms
    peak := src.peak <|> base.peak
    control_length := src.control_length <|> base.control_length
    control_list := src.control_list <|> base.control_list
    marker := src.marker
    encryption_flag := src.encryption_flag <|> base.encryption_flag
    encryption := src.encryption <|> base.encryption
    filename := src.filename <|> base.filename
    samples := src.samples <|> base.samples
    scalingfactor := src.scalingfactor <|> base.scalingfactor
    center_frequency := src.center_frequency <|> base.center_frequency }

/-- Embedding of `Storage.__init__` (non-serialized branch of `storage.py`):
the sample buffer starts as `np.zeros((1024,), dtype=np.complex128)` and the
metadata as a defaults-populated WV `Meta`. -/
structure Storage where
  data : List (ℚ × ℚ) := List.replicate 1024 (0, 0)
  meta : Meta := metaWvDefaults
deriving DecidableEq

instance : Inhabited Storage := ⟨{}⟩

/-- Embedding of `ParentStorage.__init__`: one default `Storage`, empty
filename, and a creation timestamp (modelled as an opaque natural number,
`datetime.now()` in the source). -/
structure ParentStorage where
  storages : List Storage := [{}]
  filename : String := ""
  timestamp : ℕ := 0
deriving DecidableEq

/-! ## WV save (`wv/Save.py`)

Each `Save._write_*` helper emits one tag into the output stream.  The
output is modelled at tag granularity: a `WvTag` records the tag name and
the semantic payload written.  Decimal/float text formatting carries no
information relevant to the claims and is left at this boundary; the
`LEVEL OFFS` values computed by the DSP helpers (`calculate_rms`,
`calculate_peak` on missing `rms`/`peak`, base-10 logarithms) are recorded
as `LevelVal.computed`. -/

inductive LevelVal where
  | given (x : ℚ)
  | computed
deriving DecidableEq

inductive WvTag where
  | type (s : String)
  | copyright (s : String)
  | comment (s : String)
  | levelOffs (rms peak : LevelVal)
  | date (t : ℕ)
  | clock (c : ℚ)
  | samples (n : ℕ)
  | reflevel (r : ℚ)
  | controlLength (n : ℕ)
  | controlList (bytes : List ℕ)
  | markerList (name : String) (entries : List (ℤ × ℤ))
  | emptyTag (len : ℕ)
  | waveform (tagName : String) (byteCount : ℕ) (payload : List ℤ)
  | mwvSegmentCount (n : ℕ)
  | mwvSegmentLength (ls : List ℕ)
  | mwvSegmentStart (ls : List ℕ)
  | mwvSegmentClockMode (mode : String)
  | mwvSegmentLevelMode (mode : String)
  | mwvSegmentClock (cs : List (Option ℚ))
  | mwvSegmentLevelOffs (vs : List ℚ)
  | mwvSegmentComment (idx : ℕ) (comment : Option String)
  | mwvSegmentFiles (names : List String)
deriving DecidableEq

/-- The only exception the WV/IQTAR save paths raise themselves:
`ValueError("Clock is a mandatory parameter!")` from `_write_clock`. -/
inductive SaveError where
  | clockMandatory
deriving DecidableEq

/-- The exact message text of each save-path error. -/
def saveErrorMsg : SaveError → String
  | .clockMandatory => "Clock is a mandatory parameter!"

/-- Substring test on character lists (used to state "the error message
contains the word Clock"). -/
def charsContain (hay pat : List Char) : Bool :=
  match hay with
  | [] => decide (pat = [])
  | _ :: rest => decide ((hay.take pat.length) = pat) || charsContain rest pat

/-- Substring test on strings. -/
def strContains (hay pat : String) : Bool := charsContain hay.data pat.data

/-- Test used by `Save._write_marker` to select marker keys:
`key.startswith("marker_list")`. -/
def strStarts (s pat : String) : Bool := decide (s.data.take pat.data.length = pat.data)

def write_type (m : Meta) : WvTag := .type (m.type.getD "SMU-WV")

def write_copyright (m : Meta) : WvTag := .copyright (m.copyright.getD "Rohde & Schwarz")

def write_comment (m : Meta) : WvTag := .comment (m.comment.getD "Created with RsWaveform")

/-- Conversion of a stored level value to the emitted `LEVEL OFFS` entry:
a stored value is emitted as given, a missing (`None`) value is computed
from the sample data via the DSP helpers (abstracted). -/
def levelValOf : Option ℚ → LevelVal
  | some x => .given x
  | none => .computed

def write_level_offset (m : Meta) : WvTag := .levelOffs (levelValOf m.rms) (levelValOf m.peak)

def write_date (w : ParentStorage) : WvTag := .date w.timestamp

/-- Embedding of `Save._write_clock`: `if not clock: raise ValueError(...)`;
Python truthiness makes both a missing key and the value `0.0` raise. -/
def write_clock (m : Meta) : Except SaveError WvTag :=
  match m.clock with
  | some c => if c = 0 then .error .clockMandatory else .ok (.clock c)
  | none => .error .clockMandatory

def write_samples (s : Storage) : WvTag := .samples s.data.length

/-- Embedding of `Save._write_reflevel`: emitted only when the stored value
is truthy (present and nonzero). -/
def write_reflevel (m : Meta) : List WvTag :=
  match m.reflevel with
  | some r => if r = 0 then [] else [.reflevel r]
  | none => []

def write_control_length (m : Meta) : List WvTag :=
  match m.control_length with
  | some n => if n = 0 then [] else [.controlLength n]
  | none => []

def write_control_list (m : Meta) : List WvTag :=
  match m.control_list with
  | some cols => [.controlList (pack_bool_array_to_bytes cols)]
  | none => []

/-- Embedding of `Save._write_marker`: one `MARKER LIST` tag per stored
marker key starting with `marker_list`, the entries joined in stored order
(the source performs no sorting). -/
def write_marker (m : Meta) : List WvTag :=
  (m.marker.filter fun kv => strStarts kv.1 "marker_list").map fun kv =>
    .markerList kv.1 kv.2

/-- Embedding of `Save._write_waveform`: the tag name carries the `W` prefix
exactly when the passed encryption flag is true, and the declared byte count
is `2·len(int16_data) + 1`. -/
def write_waveform (int16_data : List ℤ) (encryption_flag : Bool) : WvTag :=
  .waveform ((if encryption_flag then "W" else "") ++ "WAVEFORM")
    (int16_data.length * 2 + 1) int16_data

/-- Embedding of `Save._write` (single-segment WV save).  The random
`EMPTYTAG` length is made explicit as the parameter `emptyLen`. -/
def wv_write (w : ParentStorage) (scale : ℚ) (emptyLen : ℕ) : Except SaveError (List WvTag) :=
  let s0 := w.storages.headI
  let int16_data := prepare_data scale s0.data
  match write_clock s0.meta with
  | .error e => .error e
  | .ok clockTag =>
      .ok ([write_type s0.meta, write_copyright s0.meta, write_comment s0.meta,
            write_level_offset s0.meta, write_date w, clockTag, write_samples s0] ++
          write_reflevel s0.meta ++ write_control_length s0.meta ++
          write_control_list s0.meta ++ write_marker s0.meta ++
          [.emptyTag emptyLen, write_waveform int16_data (s0.meta.encryption_flag.getD false)])

/-- The sample buffer concatenation performed by `Save._write_mwv`:
`tmp_storage.data = np.append(d.data, tmp_storage.data)` for each storage in
order, i.e. the samples of each segment are placed IN FRONT of the previously
accumulated ones. -/
def mwv_concat_data (storages : List Storage) : List (ℚ × ℚ) :=
  storages.foldl (fun acc d => d.data ++ acc) []

/-- Segment start offsets written by `Save._write_mwv_segment_start`:
running sums of the segment lengths in storage order. -/
def mwv_segment_starts (storages : List Storage) : List ℕ :=
  (storages.foldl (fun (p : List ℕ × ℕ) d =>
    (p.1 ++ [p.2], p.2 + d.data.length)) ([], 0)).1

/-- Maximum clock written by `Save._write_mwv_clock`: fold with
`float(data.meta.get("clock", 0))` starting from `0.0`. -/
def mwv_max_clock (storages : List Storage) : ℚ :=
  storages.foldl (fun acc d => max acc (d.meta.clock.getD 0)) 0

/-- Embedding of `Save._write_mwv` (multi-segment WV save).  Note two
source facts this mirrors exactly: the payload is `mwv_concat_data`
(reverse-order concatenation), and the encryption flag passed to
`_write_waveform` is `tmp_storage.meta.get("encryption", False)` — the key
`encryption`, not `encryption_flag`. -/
def wv_write_mwv (w : ParentStorage) (scale : ℚ) (emptyLen : ℕ) :
    Except SaveError (List WvTag) :=
  let tmpData := mwv_concat_data w.storages
  let tmpMeta := { metaWvDefaults.update w.storages.headI.meta with type := some "SMU-MWV" }
  let int16_data := prepare_data scale tmpData
  .ok ([write_type tmpMeta, write_copyright tmpMeta, write_date w, .samples tmpData.length] ++
      write_reflevel tmpMeta ++
      [.mwvSegmentCount w.storages.length,
       .mwvSegmentLength (w.storages.map fun d => d.data.length),
       .mwvSegmentStart (mwv_segment_starts w.storages),
       .mwvSegmentClockMode "UNCHANGED", .mwvSegmentLevelMode "UNCHANGED",
       .clock (mwv_max_clock w.storages),
       .mwvSegmentClock (w.storages.map fun d => d.meta.clock),
       .mwvSegmentLevelOffs (w.storages.flatMap fun d =>
         [d.meta.rms.getD 0, d.meta.peak.getD 0])] ++
      ((w.storages.enum.map fun p => WvTag.mwvSegmentComment p.1 p.2.meta.comment)) ++
      (let fs := w.storages.filterMap fun d => d.meta.filename
       if fs.isEmpty then [] else [.mwvSegmentFiles fs]) ++
      [.emptyTag emptyLen, write_waveform int16_data (tmpMeta.encryption.getD false)])

/-- Embedding of `Save.save`: dispatch on the number of storages. -/
def wv_save (w : ParentStorage) (scale : ℚ) (emptyLen : ℕ) : Except SaveError (List WvTag) :=
  if w.storages.length = 1 then wv_write w scale emptyLen else wv_write_mwv w scale emptyLen

/-- Name of the `WAVEFORM`/`WWAVEFORM` tag in a saved tag stream. -/
def waveformNameOf (tags : List WvTag) : Option String :=
  tags.findSome? fun t => match t with
    | .waveform name _ _ => some name
    | _ => none

/-- Payload of the `WAVEFORM`/`WWAVEFORM` tag in a saved tag stream. -/
def waveformPayloadOf (tags : List WvTag) : Option (List ℤ) :=
  tags.findSome? fun t => match t with
    | .waveform _ _ payload => some payload
    | _ => none

/-- Value of the `SAMPLES` tag in a saved tag stream. -/
def samplesValOf (tags : List WvTag) : Option ℕ :=
  tags.findSome? fun t => match t with
    | .samples n => some n
    | _ => none

/-- The `MARKER LIST` tags of a saved tag stream, in emission order. -/
def markerTagsOf (tags : List WvTag) : List (String × List (ℤ × ℤ)) :=
  tags.filterMap fun t => match t with
    | .markerList name entries => some (name, entries)
    | _ => none

/-- Embedding of `Load._is_waveform_encrypted` (`wv/Load.py`): the input is
the optional word character captured in front of `WAVEFORM` by the payload
search regex `(?<={)(\w{0,1}WAVEFORM)`; no prefix means unencrypted, the
prefix `W` means encrypted, any other prefix raises. -/
def is_waveform_encrypted (preChar : Option Char) : Except Unit Bool :=
  match preChar with
  | none => .ok false
  | some c => if c = 'W' then .ok true else .error ()

/-- Tag list of a successful save result (`[]` for an error result). -/
def okTags (r : Except SaveError (List WvTag)) : List WvTag := r.toOption.getD []

/-- Success test for a save result. -/
def isOkE {α : Type} (r : Except SaveError α) : Bool :=
  match r with
  | .ok _ => true
  | .error _ => false

lemma mwv_concat_data_eq (ss : List Storage) :
    mwv_concat_data ss = ((ss.map fun d => d.data).reverse).flatten := by
  suffices h : ∀ acc, ss.foldl (fun acc d => d.data ++ acc) acc =
      ((ss.map fun d => d.data).reverse).flatten ++ acc by
    simpa [mwv_concat_data] using h []
  induction ss with
  | nil => intro acc; simp
  | cons s rest ih => intro acc; simp [ih, List.flatten_append]

/-- Two-segment waveform used to exhibit the MWV payload order: segment 0
holds the single sample `1/4`, segment 1 the single sample `1/2`. -/
def mwvOrderWaveform : ParentStorage :=
  { storages := [{ data := [(1/4, 0)], meta := metaWvDefaults },
                 { data := [(1/2, 0)], meta := metaWvDefaults }]
    filename := ""
    timestamp := 0 }

/-- C2: refuted by the code — `Save._write_mwv` concatenates the segment
buffers in REVERSE segment order.  `tmp_storage.data = np.append(d.data,
tmp_storage.data)` prepends each segment to the accumulated buffer, so the
emitted payload is the quantisation of `segment(n-1) ++ … ++ segment 0`.
At the two-segment waveform with segment samples `[1/4]` and `[1/2]`, the
payload is `[16384, 0, 8192, 0]` (segment 1 first), not the claimed
`[8192, 0, 16384, 0]`. -/
theorem wv_mwv_payload_reverse_order :
    (∀ ss : List Storage, mwv_concat_data ss = ((ss.map fun d => d.data).reverse).flatten) ∧
    waveformPayloadOf (okTags (wv_save mwvOrderWaveform 32768 0)) =
      some (prepare_data 32768 ([(1/2, 0)] ++ [(1/4, 0)])) ∧
    prepare_data 32768 ([(1/2, 0)] ++ [(1/4, 0)]) = [16384, 0, 8192, 0] ∧
    prepare_data 32768 ([(1/4, 0)] ++ [(1/2, 0)]) = [8192, 0, 16384, 0] ∧
    ([16384, 0, 8192, 0] : List ℤ) ≠ [8192, 0, 16384, 0] := by
  refine ⟨mwv_concat_data_eq, by decide, by decide, by decide, by decide⟩

/-- Single-segment waveform with `encryption_flag = True` stored. -/
def encFlagWaveform1 : ParentStorage :=
  { storages := [{ data := [(0, 0)], meta := { metaWvDefaults with encryption_flag := some true } }]
    filename := ""
    timestamp := 0 }

/-- Two-segment waveform with `encryption_flag = True` stored on both
segments (and no `encryption` key, which the library never sets). -/
def encFlagWaveform2 : ParentStorage :=
  { storages := [{ data := [(0, 0)], meta := { metaWvDefaults with encryption_flag := some true } },
                 { data := [(0, 0)], meta := { metaWvDefaults with encryption_flag := some true } }]
    filename := ""
    timestamp := 0 }

/-- C4: refuted by the code in the multi-segment branch.  The single-segment
saver keys the `W` prefix on `encryption_flag` and the loader decodes the
`W` prefix back into `encryption_flag`, but `Save._write_mwv` passes
`tmp_storage.meta.get("encryption", False)` — the key `encryption`, which
the library never sets — so a multi-segment waveform with
`encryption_flag = True` is emitted under the plain `WAVEFORM` tag. -/
theorem wv_encryption_flag_key_mismatch :
    waveformNameOf (okTags (wv_save encFlagWaveform1 32768 0)) = some "WWAVEFORM" ∧
    waveformNameOf (okTags (wv_save encFlagWaveform2 32768 0)) = some "WAVEFORM" ∧
    ("WAVEFORM" : String) ≠ "WWAVEFORM" ∧
    is_waveform_encrypted (some 'W') = .ok true ∧
    is_waveform_encrypted none = .ok false := by
  refine ⟨by decide, by decide, by decide, rfl, rfl⟩

/-- Formatting of one marker entry by `Save._write_marker`:
`":".join([str(el) for el in entry])`. -/
def marker_entry_string (e : ℤ × ℤ) : String := toString e.1 ++ ":" ++ toString e.2

/-- Formatting of a whole marker list by `Save._write_marker`:
`";".join(...)` over the entries in stored order. -/
def marker_list_string (entries : List (ℤ × ℤ)) : String :=
  String.intercalate ";" (entries.map marker_entry_string)

/-- Waveform whose `marker_list_1` entries are stored in descending sample
order. -/
def unsortedMarkerWaveform : ParentStorage :=
  { storages := [{ data := [(0, 0)],
                   meta := { metaWvDefaults with marker := [("marker_list_1", [(32, 0), (0, 1)])] } }]
    filename := ""
    timestamp := 0 }

/-- Ascending-by-sample-index test on a marker entry list. -/
def marker_entries_ascending : List (ℤ × ℤ) → Bool
  | [] => true
  | [_] => true
  | a :: b :: r => decide (a.1 ≤ b.1) && marker_entries_ascending (b :: r)

/-- C7 counterexample: marker entries are NOT sorted by sample index on
emission.  For the stored order `[[32,0],[0,1]]` the emitted `MARKER LIST 1`
tag carries the entries in stored order, rendered as `"32:0;0:1"`, which is
not ascending in the sample index. -/
theorem wv_marker_sorted_counterexample :
    markerTagsOf (okTags (wv_save unsortedMarkerWaveform 32768 0)) =
      [("marker_list_1", [(32, 0), (0, 1)])] ∧
    marker_list_string [(32, 0), (0, 1)] = "32:0;0:1" ∧
    marker_entries_ascending [(32, 0), (0, 1)] = false := by
  refine ⟨by decide, by decide, by decide⟩

lemma markerTagsOf_append (a b : List WvTag) :
    markerTagsOf (a ++ b) = markerTagsOf a ++ markerTagsOf b :=
  List.filterMap_append a b _

lemma markerTagsOf_write_reflevel (m : Meta) : markerTagsOf (write_reflevel m) = [] := by
  rw [write_reflevel]
  cases m.reflevel with
  | none => rfl
  | some r =>
    show markerTagsOf (if r = 0 then [] else [WvTag.reflevel r]) = []
    split_ifs <;> rfl

lemma markerTagsOf_write_control_length (m : Meta) :
    markerTagsOf (write_control_length m) = [] := by
  rw [write_control_length]
  cases m.control_length with
  | none => rfl
  | some n =>
    show markerTagsOf (if n = 0 then [] else [WvTag.controlLength n]) = []
    split_ifs <;> rfl

lemma markerTagsOf_write_control_list (m : Meta) :
    markerTagsOf (write_control_list m) = [] := by
  rw [write_control_list]
  cases m.control_list with
  | none => rfl
  | some cols => rfl

lemma markerTagsOf_head7 (m : Meta) (w : ParentStorage) (c : ℚ) (s : Storage) :
    markerTagsOf [write_type m, write_copyright m, write_comment m,
      write_level_offset m, write_date w, WvTag.clock c, write_samples s] = [] := rfl

lemma markerTagsOf_tail2 (el : ℕ) (d : List ℤ) (b : Bool) :
    markerTagsOf [WvTag.emptyTag el, write_waveform d b] = [] := rfl

lemma markerTagsOf_write_marker (m : Meta) :
    markerTagsOf (write_marker m) =
      m.marker.filter fun kv => strStarts kv.1 "marker_list" := by
  rw [write_marker, markerTagsOf, List.filterMap_map]
  induction m.marker.filter fun kv => strStarts kv.1 "marker_list" with
  | nil => rfl
  | cons kv rest ih => simpa [List.filterMap_cons] using ih

/-- C7 amended: the `MARKER LIST` tags emitted by a successful
single-segment WV save carry exactly the stored `marker_list_*` entry lists
of segment 0, in stored order — the writer performs no sorting. -/
theorem wv_marker_emitted_in_stored_order (w : ParentStorage) (scale : ℚ) (el : ℕ)
    (tags : List WvTag) (h1 : w.storages.length = 1)
    (hok : wv_save w scale el = .ok tags) :
    markerTagsOf tags =
      w.storages.headI.meta.marker.filter fun kv => strStarts kv.1 "marker_list" := by
  rw [wv_save, if_pos h1, wv_write, write_clock] at hok
  rcases hm : w.storages.headI.meta.clock with _ | c
  · simp [hm] at hok
  · simp only [hm] at hok
    by_cases h0 : c = 0
    · simp [h0] at hok
    · simp only [if_neg h0] at hok
      injection hok with hok
      subst hok
      simp only [markerTagsOf_append, markerTagsOf_head7, markerTagsOf_tail2,
        markerTagsOf_write_reflevel, markerTagsOf_write_control_length,
        markerTagsOf_write_control_list, markerTagsOf_write_marker,
        List.nil_append, List.append_nil]

/-- Witness for `wv_marker_emitted_in_stored_order` at the concrete
waveform whose `marker_list_1` entries are stored in descending order. -/
theorem wv_marker_emitted_in_stored_order_witness :
    markerTagsOf (okTags (wv_save unsortedMarkerWaveform 32768 0)) =
      unsortedMarkerWaveform.storages.headI.meta.marker.filter
        (fun kv => strStarts kv.1 "marker_list") :=
  wv_marker_emitted_in_stored_order unsortedMarkerWaveform 32768 0
    (okTags (wv_save unsortedMarkerWaveform 32768 0)) (by decide) rfl

/-! ## IQTAR XML sidecar writer (`iqtar/Save.py`) -/

/-- One element of the XML sidecar written by `Save._write_xml`
(`iqtar/Save.py`); `overhead` stands for the fixed preamble, root element
and `Name` line emitted by `_write_overhead`. -/
inductive IqTarElem where
  | overhead
  | dateTime (t : ℕ)
  | comment (s : String)
  | samples (n : ℕ)
  | clock (c : ℚ)
  | format
  | dataType
  | scalingFactor (v : ℚ)
  | dataFilename (s : String)
  | numberOfChannels (n : ℕ)
  | centerFrequency (c : ℚ)
deriving DecidableEq

/-- Embedding of the IQTAR `Save._write_clock`: same mandatory-clock check
and message as the WV writer. -/
def iqtar_write_clock (m : Meta) : Except SaveError IqTarElem :=
  match m.clock with
  | some c => if c = 0 then .error .clockMandatory else .ok (.clock c)
  | none => .error .clockMandatory

/-- Embedding of `Save._write_xml` (`iqtar/Save.py`): the sidecar elements
in emission order; `CenterFrequency` is emitted only when
`get("center_frequency", 0)` is nonzero. -/
def iqtar_write_xml (w : ParentStorage) (filename_iqw : String) :
    Except SaveError (List IqTarElem) :=
  let s0 := w.storages.headI
  match iqtar_write_clock s0.meta with
  | .error e => .error e
  | .ok clockElem =>
      .ok ([.overhead, .dateTime w.timestamp,
            .comment (s0.meta.comment.getD "Created with RsWaveform"),
            .samples s0.data.length, clockElem, .format, .dataType,
            .scalingFactor (s0.meta.scalingfactor.getD 1),
            .dataFilename filename_iqw, .numberOfChannels w.storages.length] ++
          (if s0.meta.center_frequency.getD 0 ≠ 0
           then [.centerFrequency (s0.meta.center_frequency.getD 0)] else []))

/-- Two-segment waveform with no `clock` metadata on either segment. -/
def noClockWaveform2 : ParentStorage :=
  { storages := [{ data := [(0, 0)], meta := { metaWvDefaults with clock := none } },
                 { data := [(0, 0)], meta := { metaWvDefaults with clock := none } }]
    filename := ""
    timestamp := 0 }

/-- C8 counterexample: a waveform with TWO segments and no `clock` entry
saves in WV format without any error — `Save._write_mwv` reads the clock
through `get("clock", 0)` and performs no mandatory-clock check, so the
claimed failure does not happen for multi-segment waveforms. -/
theorem wv_mwv_save_without_clock_succeeds :
    isOkE (wv_save noClockWaveform2 32768 0) = true ∧
    noClockWaveform2.storages.headI.meta.clock = none := by
  refine ⟨by decide, by decide⟩

/-- C8 amended: the mandatory-clock check applies to single-segment WV
saves and to IQTAR saves (which always read segment 0): with no `clock`
entry both fail with `ValueError("Clock is a mandatory parameter!")`, a
message containing the word `Clock`; with a positive clock neither save
raises any error.  Multi-segment WV saves never perform the check. -/
theorem clock_mandatory_on_save :
    (∀ (w : ParentStorage) (scale : ℚ) (el : ℕ), w.storages.length = 1 →
      w.storages.headI.meta.clock = none →
      wv_save w scale el = .error .clockMandatory) ∧
    (∀ (w : ParentStorage) (fn : String), w.storages.headI.meta.clock = none →
      iqtar_write_xml w fn = .error .clockMandatory) ∧
    (∀ (w : ParentStorage) (scale : ℚ) (el : ℕ) (c : ℚ),
      w.storages.headI.meta.clock = some c → 0 < c →
      isOkE (wv_save w scale el) = true) ∧
    (∀ (w : ParentStorage) (fn : String) (c : ℚ),
      w.storages.headI.meta.clock = some c → 0 < c →
      isOkE (iqtar_write_xml w fn) = true) ∧
    strContains (saveErrorMsg .clockMandatory) "Clock" = true := by
  refine ⟨?_, ?_, ?_, ?_, by decide⟩
  · intro w scale el h1 hclock
    rw [wv_save, if_pos h1, wv_write, write_clock, hclock]
  · intro w fn hclock
    rw [iqtar_write_xml, iqtar_write_clock, hclock]
  · intro w scale el c hc hpos
    have h0 : ¬ c = 0 := by intro h; rw [h] at hpos; exact lt_irrefl 0 hpos
    by_cases h1 : w.storages.length = 1
    · simp only [wv_save, if_pos h1, wv_write, write_clock, hc, if_neg h0]
      rfl
    · rw [wv_save, if_neg h1, wv_write_mwv]
      rfl
  · intro w fn c hc hpos
    have h0 : ¬ c = 0 := by intro h; rw [h] at hpos; exact lt_irrefl 0 hpos
    simp only [iqtar_write_xml, iqtar_write_clock, hc, if_neg h0]
    rfl

/-- Witness for `clock_mandatory_on_save`: a default single-segment
waveform with its `clock` removed fails both saves with the Clock error,
and the default waveform (clock `1e9`) saves without error. -/
theorem clock_mandatory_on_save_witness :
    wv_save { storages := [{ meta := { metaWvDefaults with clock := none } }] } 32768 0 =
      .error .clockMandatory ∧
    iqtar_write_xml { storages := [{ meta := { metaWvDefaults with clock := none } }] } "x" =
      .error .clockMandatory ∧
    isOkE (wv_save { storages := [{}] } 32768 0) = true ∧
    isOkE (iqtar_write_xml { storages := [{}] } "x") = true :=
  ⟨clock_mandatory_on_save.1 _ 32768 0 (by decide) rfl,
   clock_mandatory_on_save.2.1 _ "x" rfl,
   clock_mandatory_on_save.2.2.1 _ 32768 0 1000000000 rfl (by norm_num),
   clock_mandatory_on_save.2.2.2.1 _ "x" 1000000000 rfl (by norm_num)⟩

/-- C10: a freshly constructed `Storage` (and so the single segment of a
`ParentStorage` built by `RsWaveform.__init__` without a file) starts with
exactly 1024 complex zeros — not an empty buffer — and saving it in WV
format emits a `SAMPLES` tag of 1024 and a payload of 2048 int16 values
(1024 samples). -/
lemma storage_default_data : ({} : Storage).data = List.replicate 1024 (0, 0) := rfl

lemma storage_default_len : ({} : Storage).data.length = 1024 := by
  rw [storage_default_data, List.length_replicate]

lemma prepare_data_length (s : ℚ) (d : List (ℚ × ℚ)) :
    (prepare_data s d).length = 2 * d.length := by
  induction d with
  | nil => rfl
  | cons p rest ih =>
    rw [prepare_data, List.flatMap_cons] at *
    simp only [List.length_append, List.length_cons, List.length_nil, ih]
    omega

/-- The default single-segment save, evaluated symbolically: defaults have a
valid clock, no reflevel, no control list and no markers. -/
lemma wv_save_default :
    wv_save ({} : ParentStorage) 32768 0 =
      .ok [write_type metaWvDefaults, write_copyright metaWvDefaults,
           write_comment metaWvDefaults, write_level_offset metaWvDefaults,
           write_date {}, .clock 1000000000, write_samples {},
           .emptyTag 0, write_waveform (prepare_data 32768 ({} : Storage).data) false] := rfl

/-- C10: a freshly constructed `Storage` (and so the single segment of a
`ParentStorage` built by `RsWaveform.__init__` without a file) starts with
exactly 1024 complex zeros — not an empty buffer — and saving it in WV
format emits a `SAMPLES` tag of 1024 and a payload of 2048 int16 values
(1024 complex samples). -/
theorem fresh_waveform_has_1024_zero_samples :
    ({} : Storage).data = List.replicate 1024 (0, 0) ∧
    ({} : Storage).data.length = 1024 ∧
    ({} : ParentStorage).storages = [{}] ∧
    samplesValOf (okTags (wv_save {} 32768 0)) = some 1024 ∧
    (waveformPayloadOf (okTags (wv_save {} 32768 0))).map List.length = some 2048 := by
  refine ⟨rfl, storage_default_len, rfl, ?_, ?_⟩
  · have h1 : samplesValOf (okTags (wv_save {} 32768 0)) =
        some (({} : Storage).data.length) := by rw [wv_save_default]; rfl
    rw [h1, storage_default_len]
  · have h2 : (waveformPayloadOf (okTags (wv_save {} 32768 0))).map List.length =
        some ((prepare_data 32768 ({} : Storage).data).length) := by
      rw [wv_save_default]; rfl
    rw [h2, prepare_data_length, storage_default_len]

/-! ## WV chunked-load MWV guard (`wv/Load.py` `load_in_chunks`,
`_create_regex_pattern`) -/

/-- Key normalisation applied by `Load._create_regex_pattern` to build regex
group names from tag names: lowercase, spaces to underscores, dots removed. -/
def norm_key (s : String) : String :=
  String.mk (((s.data.map Char.toLower).map fun c => if c = ' ' then '_' else c).filter
    fun c => !(c == '.'))

/-- The token table of `Load._get_regex_tokens`: tag name and group-name
suffix for every recognised text tag. -/
def wv_regex_token_names : List (String × String) :=
  [("TYPE", ""), ("COPYRIGHT", ""), ("COMMENT", ""), ("DATE", ""), ("SAMPLES", ""),
   ("CLOCK", ""), ("REFLEVEL", ""), ("VECTOR MAX", ""), ("LEVEL OFFS", ""),
   ("CONTROL LENGTH", ""), ("MWV_SEGMENT_LENGTH", ""), ("MWV_SEGMENT_COUNT", ""),
   ("MWV_SEGMENT_CLOCK", ""), ("MWV_SEGMENT_LEVEL_OFFS", ""),
   ("MARKER LIST", " 1"), ("MARKER LIST", " 2"), ("MARKER LIST", " 3"), ("MARKER LIST", " 4"),
   ("MARKER MODE", " 1"), ("MARKER MODE", " 2"), ("MARKER MODE", " 3"), ("MARKER MODE", " 4")]

/-- Regex group name for one token: normalised tag name, plus
`_<suffix-without-spaces>` when a suffix is present. -/
def group_name (p : String × String) : String :=
  norm_key p.1 ++ (if p.2 = "" then "" else "_" ++ String.mk (p.2.data.filter fun c => !(c == ' ')))

/-- All keys the meta scanner (`_split_data_via_tags_meta`) can put into the
tags dictionary. -/
def scanner_group_names : List String := wv_regex_token_names.map group_name

/-- All keys present in the tags dictionary inside `load_in_chunks` when the
pop of the segment count runs: the scanner keys plus the keys added by
`_split_data_via_tags_waveform` and `_split_data_via_tags_control_list_width4`. -/
def chunk_tags_keys : List String :=
  scanner_group_names ++ ["waveform", "encryption_flag", "control_list"]

/-- The segment count read by `load_in_chunks`:
`int(tags.pop("mwv segment count", 1))` — note the SPACES in the key. -/
def chunk_segment_count (tags : List (String × ℕ)) : ℕ :=
  (tags.lookup "mwv segment count").getD 1

/-- The segment count read by the full `load`:
`int(tags.pop("mwv_segment_count", 1))` — with underscores. -/
def load_segment_count (tags : List (String × ℕ)) : ℕ :=
  (tags.lookup "mwv_segment_count").getD 1

inductive ChunkError where
  | multiSegment
deriving DecidableEq

/-- The multi-segment rejection of `load_in_chunks`:
`if mwv_segment_count > 1: raise ValueError("feature only supported for non
multi segment wv")`. -/
def load_in_chunks_mwv_guard (tags : List (String × ℕ)) : Except ChunkError Unit :=
  if chunk_segment_count tags > 1 then .error .multiSegment else .ok ()

lemma lookup_none_of_mem_allowed (key : String) (allowed : List String)
    (hkey : key ∉ allowed) :
    ∀ tags : List (String × ℕ), (∀ kv ∈ tags, kv.1 ∈ allowed) → tags.lookup key = none := by
  intro tags
  induction tags with
  | nil => intro _; rfl
  | cons kv rest ih =>
    intro h
    have h1 : kv.1 ∈ allowed := h kv (by simp)
    have hne : (key == kv.1) = false := by
      simp only [beq_eq_false_iff_ne, ne_eq]
      intro he; rw [he] at hkey; exact hkey h1
    simp only [List.lookup, hne]
    exact ih fun kv2 hkv2 => h kv2 (by simp [hkv2])

/-- C3: refuted by the code.  The meta scanner stores the segment count
under the group name `mwv_segment_count` (underscores, from
`_create_regex_pattern` normalisation), but `load_in_chunks` pops the key
`"mwv segment count"` (spaces).  That key can never be present, so the read
always falls back to the default 1 and the multi-segment rejection error is
never raised — the full loader meanwhile does read
`mwv_segment_count` and would treat the same header as multi-segment. -/
theorem wv_chunked_mwv_guard_never_fires :
    ("mwv segment count" ∉ chunk_tags_keys) ∧
    ("mwv_segment_count" ∈ scanner_group_names) ∧
    (∀ tags : List (String × ℕ), (∀ kv ∈ tags, kv.1 ∈ chunk_tags_keys) →
      load_in_chunks_mwv_guard tags = .ok ()) ∧
    load_segment_count [("mwv_segment_count", 2)] = 2 ∧
    load_in_chunks_mwv_guard [("mwv_segment_count", 2)] = .ok () := by
  refine ⟨by decide, by decide, ?_, by decide, by decide⟩
  intro tags htags
  have hnone : tags.lookup "mwv segment count" = none :=
    lookup_none_of_mem_allowed _ chunk_tags_keys (by decide) tags htags
  rw [load_in_chunks_mwv_guard, chunk_segment_count, hnone]
  rfl

/-- Witness for `wv_chunked_mwv_guard_never_fires`: the guard does not fire
on a tags dictionary that declares a segment count of 2 under the scanner
key. -/
theorem wv_chunked_mwv_guard_never_fires_witness :
    load_in_chunks_mwv_guard [("mwv_segment_count", 2)] = .ok () :=
  wv_chunked_mwv_guard_never_fires.2.2.1 [("mwv_segment_count", 2)] (by decide)

/-! ## IQW save (`iqw/save.py`)

The writer casts each interleaved float64 component to float32
(`astype(np.float32)`) and emits its 4 little-endian bytes.  Float32 values
are modelled by explicit rounding of the exact rational to the float32 grid
(round to nearest, ties to even) followed by IEEE-754 bit-level encoding;
the embedding covers the normal range, which the concrete scenario and the
library inputs inhabit. -/

/-- Floor of the base-2 logarithm of a positive rational, by fuel-bounded
doubling/halving (fuel 300 covers the whole float32 exponent range). -/
def qlog2 : ℕ → ℚ → ℤ
  | 0, _ => 0
  | fuel + 1, q =>
      if q < 1 then qlog2 fuel (2 * q) - 1
      else if 2 ≤ q then qlog2 fuel (q / 2) + 1
      else 0

/-- IEEE-754 binary32 bit pattern of the float32 nearest to a rational
(normal range; ties to even): sign bit, biased 8-bit exponent, 23-bit
fraction. -/
def f32word (q : ℚ) : ℕ :=
  if q = 0 then 0
  else
    let s : ℕ := if q < 0 then 2 ^ 31 else 0
    let a := |q|
    let e := qlog2 300 a
    let m := (round_half_even (a * (2 : ℚ) ^ ((23 : ℤ) - e))).toNat
    let e2 := if m = 2 ^ 24 then e + 1 else e
    let m2 := if m = 2 ^ 24 then 2 ^ 23 else m
    s + (e2 + 127).toNat * 2 ^ 23 + (m2 - 2 ^ 23)

/-- Little-endian byte serialisation of a 32-bit word (`tobytes()` on a
little-endian platform). -/
def f32le_bytes (w : ℕ) : List ℕ :=
  [w % 256, w / 256 % 256, w / 65536 % 256, w / 16777216 % 256]

/-- Embedding of `Save._prepare_data` (`iqw/save.py`): interleave the real
and imaginary components of each sample. -/
def iqw_prepare (seg : List (ℚ × ℚ)) : List ℚ := seg.flatMap fun p => [p.1, p.2]

/-- Embedding of `Save._scale_data`: `(1 / scale) * iq_samples`. -/
def iqw_scale_data (scale : ℚ) (seg : List (ℚ × ℚ)) : List (ℚ × ℚ) :=
  seg.map fun p => ((1 / scale) * p.1, (1 / scale) * p.2)

/-- Embedding of `Save._write` (`iqw/save.py`): for each storage in order,
scale, interleave, cast to float32 and emit little-endian bytes.  The
82-MB-block chunking of `_write_data` only splits the write calls and does
not change the byte sequence. -/
def iqw_save_bytes (scale : ℚ) (segs : List (List (ℚ × ℚ))) : List ℕ :=
  segs.flatMap fun seg =>
    (iqw_prepare (iqw_scale_data scale seg)).flatMap fun q => f32le_bytes (f32word q)

/-- C9: IQW save identity.  For the single-segment waveform with samples
`[0.2+0.4j, 0.6+0.8j]` and scale 1.0, the writer emits exactly 16 bytes:
the little-endian float32 encodings of 0.2, 0.4, 0.6, 0.8 in that order
(bit patterns `0x3E4CCCCD`, `0x3ECCCCCD`, `0x3F19999A`, `0x3F4CCCCD`); in
general every segment is scaled by `1/scale` and its real/imaginary parts
are interleaved as consecutive float32 values. -/
theorem iqw_save_identity :
    iqw_save_bytes 1 [[(1/5, 2/5), (3/5, 4/5)]] =
      [0xCD, 0xCC, 0x4C, 0x3E, 0xCD, 0xCC, 0xCC, 0x3E,
       0x9A, 0x99, 0x19, 0x3F, 0xCD, 0xCC, 0x4C, 0x3F] ∧
    (iqw_save_bytes 1 [[(1/5, 2/5), (3/5, 4/5)]]).length = 16 ∧
    f32word (1/5) = 0x3E4CCCCD ∧ f32word (2/5) = 0x3ECCCCCD ∧
    f32word (3/5) = 0x3F19999A ∧ f32word (4/5) = 0x3F4CCCCD ∧
    (∀ (a b : ℚ) (segs : List (List (ℚ × ℚ))) (seg : List (ℚ × ℚ)),
      iqw_save_bytes 1 (((a, b) :: seg) :: segs) =
        f32le_bytes (f32word a) ++ f32le_bytes (f32word b) ++
          iqw_save_bytes 1 (seg :: segs)) := by
  refine ⟨by decide, by decide, by decide, by decide, by decide, by decide, ?_⟩
  intro a b segs seg
  simp [iqw_save_bytes, iqw_prepare, iqw_scale_data]

/-! ## WV length-prefixed binary tag extraction (`wv/Load.py`
`_extract_binary_tags`)

Byte strings are `List ℕ` (values below 256).  The regex searches of the
source are modelled as left-to-right scans returning the first match, which
is exactly the semantics of `re.search`/`re.findall` first results:
`(?<={)(TAG)` finds the first occurrence of `{TAG`; `(?<=TAG-)(\d+)(?=:)`
finds the first occurrence of `TAG-` followed by a nonempty maximal digit
run terminated by `:`; `count:( |)#` finds the first occurrence of the
decimal count followed by a colon, an optional space, and `#`. -/

/-- ASCII decimal digit test on a byte. -/
def isDigitB (c : ℕ) : Bool := decide (48 ≤ c ∧ c ≤ 57)

/-- Does `pat` occur in `hay` starting at index `i`? -/
def matchAt (hay pat : List ℕ) (i : ℕ) : Bool :=
  decide ((hay.drop i).take pat.length = pat)

/-- First index `i ∈ [start, start+fuel)` with `p i`, scanning left to
right. -/
def scan_first (p : ℕ → Bool) : ℕ → ℕ → Option ℕ
  | _, 0 => none
  | i, fuel + 1 => if p i then some i else scan_first p (i + 1) fuel

/-- First `some` value of `f i` for `i ∈ [start, start+fuel)`, scanning
left to right. -/
def scan_first_some {α : Type} (f : ℕ → Option α) : ℕ → ℕ → Option α
  | _, 0 => none
  | i, fuel + 1 =>
      match f i with
      | some v => some v
      | none => scan_first_some f (i + 1) fuel

/-- First occurrence of `pat` in `hay` (`re.search` on a literal). -/
def findSub (hay pat : List ℕ) : Option ℕ := scan_first (matchAt hay pat) 0 (hay.length + 1)

/-- Value of a nonempty ASCII digit run. -/
def digitsToNat (ds : List ℕ) : ℕ := ds.foldl (fun a d => 10 * a + (d - 48)) 0

/-- Match of the byte-count pattern `(?<=TAG-)([\d]+)(?=:)` at position `i`
of the tag content: `TAG-` occurs at `i`, a nonempty maximal digit run
follows, and the byte after the run is `:` (58). -/
def count_match_at (tc tag : List ℕ) (i : ℕ) : Bool :=
  matchAt tc (tag ++ [45]) i &&
    (let ds := (tc.drop (i + tag.length + 1)).takeWhile isDigitB
     !ds.isEmpty && decide (tc.get? (i + tag.length + 1 + ds.length) = some 58))

/-- First match of the byte-count pattern, returning the parsed count. -/
def find_count (tc tag : List ℕ) : Option ℕ :=
  (scan_first (count_match_at tc tag) 0 (tc.length + 1)).map fun i =>
    digitsToNat ((tc.drop (i + tag.length + 1)).takeWhile isDigitB)

/-- ASCII decimal digits of a natural number (definition by fuel, enough
fuel = the number itself plus one). -/
def natDecDigitsAux : ℕ → ℕ → List ℕ
  | 0, _ => []
  | fuel + 1, n => if n < 10 then [48 + n] else natDecDigitsAux fuel (n / 10) ++ [48 + n % 10]

/-- ASCII decimal digits of a natural number (`f"{count}"`). -/
def natDecDigits (n : ℕ) : List ℕ := natDecDigitsAux (n + 1) n

/-- Match of the binary-start pattern `count:( |)#` at position `i`,
returning the match end; the space alternative is tried first, as in the
regex alternation. -/
def pattern_match_end (tc : List ℕ) (count : ℕ) (i : ℕ) : Option ℕ :=
  let ds := natDecDigits count
  if matchAt tc (ds ++ [58, 32, 35]) i then some (i + ds.length + 3)
  else if matchAt tc (ds ++ [58, 35]) i then some (i + ds.length + 2)
  else none

/-- End position of the first match of the binary-start pattern
(`m_pattern.end()`). -/
def find_pattern_end (tc : List ℕ) (count : ℕ) : Option ℕ :=
  scan_first_some (pattern_match_end tc count) 0 (tc.length + 1)

/-- Python slice `l[s:e]` for nonnegative bounds. -/
def pySlice (l : List ℕ) (s e : ℕ) : List ℕ := (l.take e).drop s

inductive ExtractError where
  | noByteCount
  | noSection
  | inconclusive
  | malformed
  | indexErr
deriving DecidableEq

/-- Embedding of `Load._extract_binary_tags`.  Returns `none` when the tag
is absent (`re.search` fails).  The errors map to the raises of the source:
`noByteCount` to the missing byte count, `noSection` to the missing
`count:#` marker, `inconclusive` to a declared count extending past the
buffer (full mode only), and `malformed` to the missing closing brace after
the payload (full mode only; the byte exists whenever the inconclusive
check passed, `indexErr` is unreachable). -/
def extract_binary_tags (content tag : List ℕ) (chunkMode : Bool) :
    Except ExtractError (Option (List ℕ)) :=
  match findSub content (123 :: tag) with
  | none => .ok none
  | some i =>
    let start0 := i + 1
    let tc := content.drop start0
    match find_count tc tag with
    | none => .error .noByteCount
    | some count =>
      match find_pattern_end tc count with
      | none => .error .noSection
      | some pend =>
        if decide (pend + count > tc.length) && !chunkMode then .error .inconclusive
        else
          let endIndex := (if chunkMode then content.length else pend + count) - 1
          let binary := pySlice tc pend endIndex
          if chunkMode then .ok (some binary)
          else
            match tc.get? endIndex with
            | some closing => if closing = 125 then .ok (some binary) else .error .malformed
            | none => .error .indexErr

/-- The canonical well-formed record `{TAG-N:#<body>`; everything before
the brace and after the body is irrelevant to the first-match scans when
the record is at the front. -/
def canon_content (tag ds body : List ℕ) : List ℕ :=
  123 :: (tag ++ 45 :: (ds ++ 58 :: 35 :: body))

lemma natDecDigitsAux_digits : ∀ fuel n, ∀ d ∈ natDecDigitsAux fuel n, isDigitB d = true := by
  intro fuel
  induction fuel with
  | zero => intro n d hd; simp [natDecDigitsAux] at hd
  | succ f ih =>
    intro n d hd
    rw [natDecDigitsAux] at hd
    by_cases h : n < 10
    · rw [if_pos h] at hd
      simp only [List.mem_singleton] at hd
      subst hd
      simp only [isDigitB, decide_eq_true_iff]
      omega
    · rw [if_neg h] at hd
      rcases List.mem_append.mp hd with h1 | h2
      · exact ih _ d h1
      · simp only [List.mem_singleton] at h2
        subst h2
        have : n % 10 < 10 := Nat.mod_lt n (by omega)
        simp only [isDigitB, decide_eq_true_iff]
        omega

lemma natDecDigits_digits (n : ℕ) : ∀ d ∈ natDecDigits n, isDigitB d = true :=
  natDecDigitsAux_digits (n + 1) n

lemma natDecDigits_ne_nil (n : ℕ) : natDecDigits n ≠ [] := by
  rw [natDecDigits, natDecDigitsAux]
  split_ifs <;> simp

lemma digitsToNat_append_one (xs : List ℕ) (d : ℕ) :
    digitsToNat (xs ++ [d]) = 10 * digitsToNat xs + (d - 48) := by
  rw [digitsToNat, digitsToNat, List.foldl_append]
  rfl

lemma digitsToNat_natDecDigitsAux : ∀ fuel n, n < fuel →
    digitsToNat (natDecDigitsAux fuel n) = n := by
  intro fuel
  induction fuel with
  | zero => omega
  | succ f ih =>
    intro n hn
    rw [natDecDigitsAux]
    by_cases h : n < 10
    · rw [if_pos h, digitsToNat]
      show 10 * 0 + (48 + n - 48) = n
      omega
    · rw [if_neg h, digitsToNat_append_one]
      have hdiv : n / 10 < f := by omega
      rw [ih _ hdiv]
      omega

lemma digitsToNat_natDecDigits (n : ℕ) : digitsToNat (natDecDigits n) = n :=
  digitsToNat_natDecDigitsAux (n + 1) n (by omega)

lemma scan_first_zero (p : ℕ → Bool) (fuel : ℕ) (hf : 0 < fuel) (h : p 0 = true) :
    scan_first p 0 fuel = some 0 := by
  cases fuel with
  | zero => omega
  | succ f => rw [scan_first, if_pos h]

lemma scan_first_some_spec {α : Type} (f : ℕ → Option α) (j : ℕ) (v : α) :
    ∀ (fuel i : ℕ), i ≤ j → j < i + fuel → f j = some v →
    (∀ k, i ≤ k → k < j → f k = none) → scan_first_some f i fuel = some v := by
  intro fuel
  induction fuel with
  | zero => omega
  | succ fl ih =>
    intro i hij hlt hfj hbefore
    rw [scan_first_some]
    by_cases hik : i = j
    · subst hik; rw [hfj]
    · have hnone : f i = none := hbefore i le_rfl (by omega)
      rw [hnone]
      exact ih (i + 1) (by omega) (by omega) hfj (fun k hk1 hk2 => hbefore k (by omega) hk2)

lemma takeWhile_digits_colon (ds rest : List ℕ) (h : ∀ d ∈ ds, isDigitB d = true) :
    (ds ++ 58 :: rest).takeWhile isDigitB = ds := by
  induction ds with
  | nil =>
    simp only [List.nil_append, List.takeWhile_cons]
    rw [show isDigitB 58 = false from rfl]
    rfl
  | cons d dd ih =>
    simp only [List.cons_append, List.takeWhile_cons, h d (by simp)]
    simp [ih fun x hx => h x (by simp [hx])]

lemma matchAt_true_head (hay pat : List ℕ) (i c : ℕ) (hc : pat.head? = some c)
    (h : matchAt hay pat i = true) : hay.get? i = some c := by
  rw [matchAt, decide_eq_true_iff] at h
  cases pat with
  | nil => simp at hc
  | cons p ps =>
    have hpc : p = c := by simpa using hc
    subst hpc
    cases hd : hay.drop i with
    | nil => rw [hd] at h; simp at h
    | cons a l =>
      rw [hd] at h
      simp only [List.length_cons, List.take_succ_cons] at h
      have ha : a = p := by
        have := congrArg List.head? h
        simpa using this
      have hget : (hay.drop i).get? 0 = hay.get? i := by
        rw [List.get?_eq_getElem?, List.getElem?_drop, Nat.add_zero, ← List.get?_eq_getElem?]
      rw [← hget, hd, ha]
      rfl

lemma take_len_append (l₁ l₂ : List ℕ) : (l₁ ++ l₂).take l₁.length = l₁ := by
  induction l₁ with
  | nil => simp
  | cons a l ih => simp [ih]

lemma drop_len_append (l₁ l₂ : List ℕ) : (l₁ ++ l₂).drop l₁.length = l₂ := by
  induction l₁ with
  | nil => simp
  | cons a l ih => simp [ih]

lemma take_len_add (l₁ l₂ : List ℕ) (k : ℕ) :
    (l₁ ++ l₂).take (l₁.length + k) = l₁ ++ l₂.take k := by
  induction l₁ with
  | nil => simp
  | cons a l ih =>
    simp only [List.cons_append, List.length_cons]
    rw [Nat.succ_add, List.take_succ_cons, ih]

lemma get?_len_add (l₁ l₂ : List ℕ) (k : ℕ) :
    (l₁ ++ l₂).get? (l₁.length + k) = l₂.get? k := by
  induction l₁ with
  | nil => simp
  | cons a l ih =>
    simp only [List.cons_append, List.length_cons]
    rw [Nat.succ_add]
    exact ih

lemma canon_findSub (tag ds body : List ℕ) :
    findSub (canon_content tag ds body) (123 :: tag) = some 0 := by
  apply scan_first_zero _ _ (by omega)
  rw [matchAt, decide_eq_true_iff, List.drop_zero, canon_content]
  show (123 :: (tag ++ 45 :: (ds ++ 58 :: 35 :: body))).take (tag.length + 1) = 123 :: tag
  rw [Nat.add_comm tag.length 1, Nat.add_comm, List.take_succ_cons]
  congr 1
  have := take_len_append tag (45 :: (ds ++ 58 :: 35 :: body))
  exact this

lemma canon_tc_assoc (tag ds body : List ℕ) :
    tag ++ 45 :: (ds ++ 58 :: 35 :: body) =
      (tag ++ [45]) ++ (ds ++ 58 :: 35 :: body) := by
  simp

lemma canon_count_match (tag ds body : List ℕ)
    (hds_d : ∀ d ∈ ds, isDigitB d = true) (hne : ds ≠ []) :
    count_match_at (tag ++ 45 :: (ds ++ 58 :: 35 :: body)) tag 0 = true := by
  rw [count_match_at, Bool.and_eq_true]
  constructor
  · rw [matchAt, decide_eq_true_iff, List.drop_zero, canon_tc_assoc]
    exact take_len_append _ _
  · have hdrop : (tag ++ 45 :: (ds ++ 58 :: 35 :: body)).drop (0 + tag.length + 1) =
        ds ++ 58 :: 35 :: body := by
      rw [canon_tc_assoc]
      have h01 : 0 + tag.length + 1 = (tag ++ [45]).length := by simp
      rw [h01, drop_len_append]
    simp only [hdrop, takeWhile_digits_colon ds (35 :: body) hds_d, Bool.and_eq_true]
    refine ⟨by simpa using hne, ?_⟩
    rw [decide_eq_true_iff]
    have hidx : 0 + tag.length + 1 + ds.length = (tag ++ [45]).length + ds.length := by simp
    rw [canon_tc_assoc, hidx, get?_len_add]
    have hz : (ds ++ 58 :: 35 :: body).get? ds.length =
        (ds ++ 58 :: 35 :: body).get? (ds.length + 0) := by rw [Nat.add_zero]
    rw [hz, get?_len_add]
    rfl

lemma canon_find_count (tag ds body : List ℕ)
    (hds_d : ∀ d ∈ ds, isDigitB d = true) (hne : ds ≠ []) :
    find_count (tag ++ 45 :: (ds ++ 58 :: 35 :: body)) tag = some (digitsToNat ds) := by
  rw [find_count, scan_first_zero _ _ (by omega) (canon_count_match tag ds body hds_d hne)]
  have hdrop : (tag ++ 45 :: (ds ++ 58 :: 35 :: body)).drop (0 + tag.length + 1) =
      ds ++ 58 :: 35 :: body := by
    rw [canon_tc_assoc]
    have h01 : 0 + tag.length + 1 = (tag ++ [45]).length := by simp
    rw [h01, drop_len_append]
  exact congrArg some (by
    show digitsToNat (List.takeWhile isDigitB
      (List.drop (0 + tag.length + 1) (tag ++ 45 :: (ds ++ 58 :: 35 :: body)))) = digitsToNat ds
    rw [hdrop, takeWhile_digits_colon ds (35 :: body) hds_d])

lemma canon_drop_tag1 (tag ds body : List ℕ) :
    (tag ++ 45 :: (ds ++ 58 :: 35 :: body)).drop (tag.length + 1) =
      ds ++ 58 :: 35 :: body := by
  rw [canon_tc_assoc]
  have h01 : tag.length + 1 = (tag ++ [45]).length := by simp
  rw [h01, drop_len_append]

lemma canon_pattern_at (tag body : List ℕ) (N : ℕ) :
    pattern_match_end (tag ++ 45 :: (natDecDigits N ++ 58 :: 35 :: body)) N
      (tag.length + 1) = some (tag.length + 1 + (natDecDigits N).length + 2) := by
  rw [pattern_match_end]
  have hspace : matchAt (tag ++ 45 :: (natDecDigits N ++ 58 :: 35 :: body))
      (natDecDigits N ++ [58, 32, 35]) (tag.length + 1) = false := by
    rw [matchAt, decide_eq_false_iff_not]
    intro heq
    rw [canon_drop_tag1, List.length_append] at heq
    rw [show ([58, 32, 35] : List ℕ).length = 3 from rfl] at heq
    rw [take_len_add] at heq
    have h2 := List.append_cancel_left heq
    simp at h2
  have hplain : matchAt (tag ++ 45 :: (natDecDigits N ++ 58 :: 35 :: body))
      (natDecDigits N ++ [58, 35]) (tag.length + 1) = true := by
    rw [matchAt, decide_eq_true_iff, canon_drop_tag1, List.length_append]
    rw [show ([58, 35] : List ℕ).length = 2 from rfl, take_len_add]
    rfl
  simp only [hspace, hplain, Bool.false_eq_true, if_false, if_true]

lemma canon_pattern_before (tag ds body : List ℕ) (N : ℕ)
    (hT : ∀ c ∈ tag, isDigitB c = false) :
    ∀ k, k < tag.length + 1 →
      pattern_match_end (tag ++ 45 :: (ds ++ 58 :: 35 :: body)) N k = none := by
  intro k hk
  have hck : ∃ c, (tag ++ 45 :: (ds ++ 58 :: 35 :: body)).get? k = some c ∧
      isDigitB c = false := by
    rw [canon_tc_assoc]
    have hlt : k < (tag ++ [45]).length := by simp; omega
    cases hg : (tag ++ [45]).get? k with
    | none =>
      rw [List.get?_eq_none] at hg
      omega
    | some c =>
      refine ⟨c, ?_, ?_⟩
      · rw [List.get?_eq_getElem?, List.getElem?_append, if_pos hlt, ← List.get?_eq_getElem?]
        exact hg
      · have hmem := List.get?_mem hg
        rcases List.mem_append.mp hmem with h1 | h2
        · exact hT c h1
        · simp only [List.mem_singleton] at h2
          subst h2
          rfl
  obtain ⟨c, hc, hcd⟩ := hck
  have hhead : ∀ (rest : List ℕ), (natDecDigits N ++ rest).head? = some ((natDecDigits N).headI) ∧
      isDigitB ((natDecDigits N).headI) = true := by
    intro rest
    cases hd : natDecDigits N with
    | nil => exact absurd hd (natDecDigits_ne_nil N)
    | cons d dd =>
      constructor
      · simp
      · have := natDecDigits_digits N d (by rw [hd]; simp)
        simpa using this
  have hmfalse : ∀ (suffix : List ℕ),
      matchAt (tag ++ 45 :: (ds ++ 58 :: 35 :: body)) (natDecDigits N ++ suffix) k = false := by
    intro suffix
    cases hmm : matchAt (tag ++ 45 :: (ds ++ 58 :: 35 :: body)) (natDecDigits N ++ suffix) k with
    | false => rfl
    | true =>
      exfalso
      have hh := (hhead suffix).1
      have hd := (hhead suffix).2
      have hgk := matchAt_true_head _ _ _ _ hh hmm
      rw [hc] at hgk
      injection hgk with hce
      rw [hce] at hcd
      rw [hd] at hcd
      exact Bool.noConfusion hcd
  rw [pattern_match_end]
  simp only [hmfalse, Bool.false_eq_true, if_false]

lemma canon_find_pattern (tag body : List ℕ) (N : ℕ)
    (hT : ∀ c ∈ tag, isDigitB c = false) :
    find_pattern_end (tag ++ 45 :: (natDecDigits N ++ 58 :: 35 :: body)) N =
      some (tag.length + 1 + (natDecDigits N).length + 2) := by
  rw [find_pattern_end]
  have hlen_ge : tag.length + 1 ≤ (tag ++ 45 :: (natDecDigits N ++ 58 :: 35 :: body)).length := by
    simp
  apply scan_first_some_spec _ (tag.length + 1) _ _ 0 (by omega) (by omega)
    (canon_pattern_at tag body N)
  intro k _ hk
  exact canon_pattern_before tag (natDecDigits N) body N hT k hk

lemma canon_tc_flat (tag ds body : List ℕ) :
    tag ++ 45 :: (ds ++ 58 :: 35 :: body) = ((tag ++ [45]) ++ ds ++ [58, 35]) ++ body := by
  simp

/-- C5: length-prefixed binary tag extraction.  For a record
`{TAG-N:#<body…>` whose tag text contains no digit bytes and whose declared
count `N ≥ 1` does not exceed the bytes that follow the `#`, full-read mode
returns exactly the `N-1` bytes after `#` when the byte at offset `N-1`
after `#` is the closing brace 125, and fails with the malformed-section
error otherwise; partial-read mode never performs the closing-brace check
and returns the whole remaining buffer without error. -/
theorem wv_binary_tag_extraction (tag body : List ℕ) (N : ℕ)
    (hT : ∀ c ∈ tag, isDigitB c = false) (hN : 1 ≤ N) (hlen : N ≤ body.length) :
    (extract_binary_tags (canon_content tag (natDecDigits N) body) tag false =
      if body.get? (N - 1) = some 125
      then .ok (some (body.take (N - 1)))
      else .error .malformed) ∧
    extract_binary_tags (canon_content tag (natDecDigits N) body) tag true =
      .ok (some body) := by
  have hdigits := natDecDigits_digits N
  have hne := natDecDigits_ne_nil N
  have hfind := canon_findSub tag (natDecDigits N) body
  have hcount := canon_find_count tag (natDecDigits N) body hdigits hne
  rw [digitsToNat_natDecDigits] at hcount
  have hpat := canon_find_pattern tag body N hT
  have hA_len : ((tag ++ [45]) ++ natDecDigits N ++ [58, 35]).length =
      tag.length + 1 + (natDecDigits N).length + 2 := by
    simp
    omega
  have htc_len : (tag ++ 45 :: (natDecDigits N ++ 58 :: 35 :: body)).length =
      tag.length + 1 + (natDecDigits N).length + 2 + body.length := by
    rw [canon_tc_flat, List.length_append, hA_len]
  have hguard_prop : ¬ (tag.length + 1 + (natDecDigits N).length + 2 + N >
      (tag ++ 45 :: (natDecDigits N ++ 58 :: 35 :: body)).length) := by
    rw [htc_len]; omega
  have hclos : (tag ++ 45 :: (natDecDigits N ++ 58 :: 35 :: body)).get?
      (tag.length + 1 + (natDecDigits N).length + 2 + N - 1) = body.get? (N - 1) := by
    rw [canon_tc_flat]
    have h1 : tag.length + 1 + (natDecDigits N).length + 2 + N - 1 =
        ((tag ++ [45]) ++ natDecDigits N ++ [58, 35]).length + (N - 1) := by
      rw [hA_len]; omega
    rw [h1, get?_len_add]
  have hbin : pySlice (tag ++ 45 :: (natDecDigits N ++ 58 :: 35 :: body))
      (tag.length + 1 + (natDecDigits N).length + 2)
      (tag.length + 1 + (natDecDigits N).length + 2 + N - 1) = body.take (N - 1) := by
    rw [pySlice, canon_tc_flat]
    have h1 : tag.length + 1 + (natDecDigits N).length + 2 + N - 1 =
        ((tag ++ [45]) ++ natDecDigits N ++ [58, 35]).length + (N - 1) := by
      rw [hA_len]; omega
    rw [h1, take_len_add]
    have h2 : tag.length + 1 + (natDecDigits N).length + 2 =
        ((tag ++ [45]) ++ natDecDigits N ++ [58, 35]).length := hA_len.symm
    rw [h2, drop_len_append]
  have hbin_chunk : pySlice (tag ++ 45 :: (natDecDigits N ++ 58 :: 35 :: body))
      (tag.length + 1 + (natDecDigits N).length + 2)
      ((canon_content tag (natDecDigits N) body).length - 1) = body := by
    have hcl : (canon_content tag (natDecDigits N) body).length - 1 =
        (tag ++ 45 :: (natDecDigits N ++ 58 :: 35 :: body)).length := by
      rw [canon_content, List.length_cons]
      omega
    rw [pySlice, hcl, List.take_length, canon_tc_flat]
    have h2 : tag.length + 1 + (natDecDigits N).length + 2 =
        ((tag ++ [45]) ++ natDecDigits N ++ [58, 35]).length := hA_len.symm
    rw [h2, drop_len_append]
  have hdrop1 : (canon_content tag (natDecDigits N) body).drop (0 + 1) =
      tag ++ 45 :: (natDecDigits N ++ 58 :: 35 :: body) := by
    rw [canon_content]
    rfl
  have hguardF : (decide (tag.length + 1 + (natDecDigits N).length + 2 + N >
      (tag ++ 45 :: (natDecDigits N ++ 58 :: 35 :: body)).length) && !false) = false := by
    rw [Bool.not_false, Bool.and_true]
    exact decide_eq_false hguard_prop
  have hguardT : (decide (tag.length + 1 + (natDecDigits N).length + 2 + N >
      (tag ++ 45 :: (natDecDigits N ++ 58 :: 35 :: body)).length) && !true) = false := by
    rw [Bool.not_true, Bool.and_false]
  constructor
  · simp only [extract_binary_tags, hfind, hdrop1, hcount, hpat, hguardF,
      Bool.false_eq_true, if_false, hclos]
    cases hg : body.get? (N - 1) with
    | none =>
      exfalso
      rw [List.get?_eq_none] at hg
      omega
    | some c =>
      simp only [hg, hbin]
      by_cases hc : c = 125
      · subst hc
        rw [if_pos rfl, if_pos rfl]
      · rw [if_neg hc, if_neg (by simp [hc])]
  · simp only [extract_binary_tags, hfind, hdrop1, hcount, hpat, hguardT,
      Bool.false_eq_true, if_false, eq_self_iff_true, if_true, hbin_chunk]

/-- Witness for `wv_binary_tag_extraction`: the record `{WAVEFORM-3:#..}..`
(tag bytes of `WAVEFORM`, count 3, body `[7, 9, 125, 99]` whose byte at
offset 2 is the closing brace 125) extracts the two payload bytes `[7, 9]`
in full-read mode. -/
theorem wv_binary_tag_extraction_witness :
    extract_binary_tags
      (canon_content [87, 65, 86, 69, 70, 79, 82, 77] (natDecDigits 3) [7, 9, 125, 99])
      [87, 65, 86, 69, 70, 79, 82, 77] false = .ok (some [7, 9]) := by
  have h := (wv_binary_tag_extraction [87, 65, 86, 69, 70, 79, 82, 77] [7, 9, 125, 99] 3
    (by decide) (by decide) (by decide)).1
  rw [if_pos (by decide)] at h
  exact h.trans (by decide)

end RsWaveform
